import Mathlib

/-!
Shallow embedding of the drogue-http-client crate (src/lib.rs) and proofs
about its request serialization and response state machine.

Modelling conventions:
- bytes are `Nat` values (u8), byte buffers are `List Nat`;
- the heapless vectors (`inbound`, the `out` buffer) are modelled as lists,
  i.e. runs in which the caller-chosen capacities suffice (appends succeed);
- the `httparse` status-line/header tokenizer is an external crate, treated —
  as in the specification — as a replaceable parsing primitive: the state
  machine is parameterized over a function `Bytes → ParseResult`, and
  theorems that need its behaviour assume the `ParserSpec` contract below;
- `ResponseHandler` callbacks are recorded as an `Event` trace instead of
  mutating a handler: `Event.status` is `handler.response(..)`,
  `Event.body d` is `more_payload(Ok(Some(d)))`, `Event.bodyEnd` is
  `more_payload(Ok(None))` and `Event.bodyErr` is `more_payload(Err(()))`;
- a `Sink` is a state type `σ` with `send : σ → Bytes → σ × Option Nat`
  (`some k` = `Ok(k)` bytes accepted, `none` = `Err(())`).
-/

namespace DrogueHttp

abbrev Bytes := List Nat

/-- Byte view of a Rust string literal / `&str` (`s.as_bytes()`); all the
literals used here are ASCII so `Char.toNat` is the byte value. -/
def strBytes (s : String) : Bytes := s.toList.map Char.toNat

/-- `enum State` from src/lib.rs: `Header`, `Payload(usize)`, `Complete`,
`UnlimitedPayload`. -/
inductive State
  | header
  | payload (size : Nat)
  | complete
  | unlimitedPayload
deriving DecidableEq

/-- The argument of `Request::push`, a `Result<Option<&[u8]>, ()>`:
`data d` = `Ok(Some(d))`, `close` = `Ok(None)`, `failed` = `Err(())`. -/
inductive Input
  | data (d : Bytes)
  | close
  | failed
deriving DecidableEq

/-- One `ResponseHandler` callback. -/
inductive Event
  | status (version : Nat) (code : Nat) (reason : Bytes)
  | body (d : Bytes)
  | bodyEnd
  | bodyErr
deriving DecidableEq

/-- Outcome of `httparse::Response::parse` on a buffer:
`Ok(Status::Complete(len))` together with the parsed version, code, reason
and header list, `Ok(Status::Partial)`, or `Err(..)`. -/
inductive ParseResult
  | complete (len : Nat) (version : Nat) (code : Nat) (reason : Bytes)
      (headers : List (Bytes × Bytes))
  | needMore
  | parseError
deriving DecidableEq

/-- The data of `struct Request` (with the `HttpConnection`'s `inbound`
buffer inlined; the handler is replaced by the event trace). -/
structure Request where
  inbound : Bytes
  state : State
  processed_bytes : Nat
deriving DecidableEq

/-- `u8::to_ascii_lowercase`. -/
def asciiLower (b : Nat) : Nat := if 65 ≤ b ∧ b ≤ 90 then b + 32 else b

/-- `eq_ignore_ascii_case` on byte strings. -/
def eqIgnoreAsciiCase (a b : Bytes) : Bool :=
  a.map asciiLower == b.map asciiLower

def contentLengthName : Bytes := strBytes "content-length"

/-- `usize::MAX` of the (64-bit) target. -/
def usizeMax : Nat := 2 ^ 64 - 1

def isDigitByte (b : Nat) : Bool := decide (48 ≤ b ∧ b ≤ 57)

def digitsToNat (ds : Bytes) : Nat := ds.foldl (fun acc d => acc * 10 + (d - 48)) 0

/-- Composition `core::str::from_utf8(value)` then `str::parse::<usize>()`
used on the Content-Length value in `push_header`: it succeeds exactly on an
optional leading `+` sign followed by one or more ASCII digits whose value
fits in `usize` (any such byte string is valid UTF-8, and any other byte
string either fails UTF-8 decoding or fails `usize::from_str`). -/
def parseUsize (v : Bytes) : Option Nat :=
  let ds := match v with
    | 43 :: rest => rest
    | _ => v
  if ds ≠ [] ∧ ds.all isDigitByte ∧ digitsToNat ds ≤ usizeMax then
    some (digitsToNat ds)
  else none

/-- The `self.state = match content_size ...` expression of
`Request::push_header`: first header whose name equals `content-length`
case-insensitively; its value parsed as `usize` gives `Payload(size)`,
anything else gives `UnlimitedPayload`. -/
def nextState (headers : List (Bytes × Bytes)) : State :=
  match headers.find? (fun e => eqIgnoreAsciiCase e.1 contentLengthName) with
  | some h =>
    match parseUsize h.2 with
    | some size => State.payload size
    | none => State.unlimitedPayload
  | none => State.unlimitedPayload

/-- `Request::push_payload` (UnlimitedPayload state): forwards the argument
verbatim to `handler.more_payload`, no state change. -/
def push_payload (r : Request) (data : Input) : Request × List Event :=
  (r, [match data with
       | Input.data d => Event.body d
       | Input.close => Event.bodyEnd
       | Input.failed => Event.bodyErr])

/-- `Request::push_complete_payload` (Complete state): data is appended to
the connection's `inbound` buffer; close or error calls the (no-op)
`HttpConnection::closed`. -/
def push_complete_payload (r : Request) (data : Input) : Request × List Event :=
  match data with
  | Input.data d => ({ r with inbound := r.inbound ++ d }, [])
  | Input.close => (r, [])
  | Input.failed => (r, [])

/-- `Request::push_sized_payload` (Payload state). -/
def push_sized_payload (r : Request) (expected_bytes : Nat) (data : Input) :
    Request × List Event :=
  match data with
  | Input.data d =>
    let len := d.length
    let rem := expected_bytes - r.processed_bytes
    if rem ≤ len then
      ({ r with state := State.complete },
       [Event.body (d.take rem), Event.bodyEnd])
    else
      ({ r with processed_bytes := r.processed_bytes + len }, [Event.body d])
  | Input.close => (r, [])
  | Input.failed => (r, [])

/-- The dispatch of `Request::push` restricted to the non-`Header` states.
It is the target of the recursive `self.push(Ok(Some(rem_data)))` call in
`push_header`: at that point `self.state` was just set to `nextState`, which
is never `Header` (lemma `nextState_cases`), so the recursion only ever
lands in one of these branches. -/
def pushBody (r : Request) (data : Input) : Request × List Event :=
  match r.state with
  | State.header => (r, [])
  | State.payload size => push_sized_payload r size data
  | State.unlimitedPayload => push_payload r data
  | State.complete => push_complete_payload r data

/-- `Request::push_header`, parameterized by the parsing primitive `P`.
Mirrors the source order: append the fragment to `inbound`, parse; on
`Complete(len)` set the next state, emit the status callback, re-dispatch
`&data[start..]` through `push`, then clear the buffer; on `Partial` or a
parse error do nothing further (the appended bytes stay in `inbound`). -/
def push_header (P : Bytes → ParseResult) (r : Request) (data : Input) :
    Request × List Event :=
  match data with
  | Input.data d =>
    let inbound := r.inbound ++ d
    match P inbound with
    | ParseResult.complete len version code reason headers =>
      let r1 : Request := { r with inbound := inbound, state := nextState headers }
      let buffer_len := inbound.length
      let data_len := d.length
      let start := len - (buffer_len - data_len)
      let rem_data := d.drop start
      let res := pushBody r1 (Input.data rem_data)
      ({ res.1 with inbound := [] }, Event.status version code reason :: res.2)
    | ParseResult.needMore => ({ r with inbound := inbound }, [])
    | ParseResult.parseError => ({ r with inbound := inbound }, [])
  | Input.close => (r, [])
  | Input.failed => (r, [])

/-- `Request::push`. -/
def push (P : Bytes → ParseResult) (r : Request) (data : Input) :
    Request × List Event :=
  match r.state with
  | State.header => push_header P r data
  | State.payload size => push_sized_payload r size data
  | State.unlimitedPayload => push_payload r data
  | State.complete => push_complete_payload r data

/-- `Request::push_data`. -/
def push_data (P : Bytes → ParseResult) (r : Request) (d : Bytes) :
    Request × List Event :=
  push P r (Input.data d)

/-- `Request::push_close`. -/
def push_close (P : Bytes → ParseResult) (r : Request) : Request × List Event :=
  push P r Input.close

/-- `Request::is_complete`. -/
def is_complete (r : Request) : Bool :=
  match r.state with
  | State.complete => true
  | _ => false

/-- The `Request` value built by `RequestBuilder::execute_with` from a fresh
`HttpConnection::new()`: empty inbound buffer, `State::Header`, zero
processed bytes. -/
def initialRequest : Request :=
  { inbound := [], state := State.header, processed_bytes := 0 }

/-- Feed a list of data fragments through `push_data`, collecting the
callback trace. -/
def runData (P : Bytes → ParseResult) (r : Request) :
    List Bytes → Request × List Event
  | [] => (r, [])
  | d :: rest =>
    let s1 := push P r (Input.data d)
    let s2 := runData P s1.1 rest
    (s2.1, s1.2 ++ s2.2)

/-- Feed a list of arbitrary inputs (data fragments / closes) through
`push`. -/
def runInputs (P : Bytes → ParseResult) (r : Request) :
    List Input → Request × List Event
  | [] => (r, [])
  | i :: rest =>
    let s1 := push P r i
    let s2 := runInputs P s1.1 rest
    (s2.1, s1.2 ++ s2.2)

/-- The status callbacks of a trace, with their arguments. -/
def obsStatus (evts : List Event) : List (Nat × Nat × Bytes) :=
  evts.filterMap fun e =>
    match e with
    | Event.status v c rs => some (v, c, rs)
    | _ => none

/-- Concatenation of all body-fragment callbacks of a trace. -/
def obsBody (evts : List Event) : Bytes :=
  (evts.filterMap fun e =>
    match e with
    | Event.body d => some d
    | _ => none).flatten

/-- Number of end-of-body sentinel callbacks in a trace. -/
def obsEnd (evts : List Event) : Nat :=
  evts.countP fun e =>
    match e with
    | Event.bodyEnd => true
    | _ => false

/-- Contract of the parsing primitive on a given response byte stream whose
status line + header block occupies the first `L` bytes: every proper
prefix of the header block is `Partial`, and every prefix of the stream
containing the whole header block parses to `Complete(L)` with the same
version/code/reason/headers (httparse never reads past the terminating
blank line). -/
def ParserSpec (P : Bytes → ParseResult) (stream : Bytes) (L version code : Nat)
    (reason : Bytes) (headers : List (Bytes × Bytes)) : Prop :=
  0 < L ∧ L ≤ stream.length ∧
  ∀ t, t ≤ stream.length →
    (t < L → P (stream.take t) = ParseResult.needMore) ∧
    (L ≤ t → P (stream.take t) = ParseResult.complete L version code reason headers)

/-! ## Request serialization (`create_request_headers`, `send_request`,
`execute_with`, `SinkWrapper::write_str`) -/

/-- ASCII decimal rendering of a `usize`, as produced by formatting it with
`write!`. -/
def natDecimal (n : Nat) : Bytes := (Nat.toDigits 10 n).map Char.toNat

/-- One `write!(w, "\x7b\x7d: \x7b\x7d\r\n", name, value)` header line. -/
def headerLine (h : Bytes × Bytes) : Bytes :=
  h.1 ++ strBytes ": " ++ h.2 ++ strBytes "\r\n"

/-- `HttpConnection::create_request_headers`: the bytes written through the
`core::fmt::Write` target. Note that in the source the Content-Length line
is nested inside `if let Some(headers) = headers`, so it is only produced
when a header list was supplied. -/
def create_request_headers (method path : Bytes)
    (headers : Option (List (Bytes × Bytes))) (content_length : Option Nat) :
    Bytes :=
  method ++ strBytes " " ++ path ++ strBytes " HTTP/1.1\r\n"
  ++ (match headers with
      | some hs =>
        (match content_length with
         | some l => strBytes "Content-Length" ++ strBytes ": " ++ natDecimal l
             ++ strBytes "\r\n"
         | none => [])
        ++ (hs.map headerLine).flatten
      | none => [])
  ++ strBytes "\r\n"

/-- `HttpConnection::send_request`, over an abstract `Sink` (state type `σ`,
`send` returns the new sink state and `Ok(accepted)`/`Err`): format the
header block into the `out` buffer (modelled with sufficient `OUT`
capacity), issue a single `sink.send(&out)` whose accepted count is
discarded by the `?` operator, then — if a payload is present — a single
`sink.send(payload)`. Returns the final sink state and whether the function
returned `Ok(())`. -/
def send_request {σ : Type} (send : σ → Bytes → σ × Option Nat) (sink : σ)
    (method path : Bytes) (headers : Option (List (Bytes × Bytes)))
    (payload : Option Bytes) : σ × Bool :=
  let out := create_request_headers method path headers (payload.map List.length)
  match send sink out with
  | (s1, none) => (s1, false)
  | (s1, some _) =>
    match payload with
    | none => (s1, true)
    | some p =>
      match send s1 p with
      | (s2, none) => (s2, false)
      | (s2, some _) => (s2, true)

/-- `RequestBuilder::execute_with` on a builder made from
`HttpConnection::new()`: calls `send_request`, discards its `Result`
(the `// FIXME: handle error` line), and returns the `Request` in state
`Header` with zero processed bytes. -/
def execute_with {σ : Type} (send : σ → Bytes → σ × Option Nat) (sink : σ)
    (method path : Bytes) (headers : Option (List (Bytes × Bytes)))
    (payload : Option Bytes) : σ × Request :=
  let r := send_request send sink method path headers payload
  (r.1, initialRequest)

/-- `impl Sink for Vec<u8, N>` (with sufficient capacity): accept the whole
slice and report its length. -/
def vecSend (s : Bytes) (d : Bytes) : Bytes × Option Nat :=
  (s ++ d, some d.length)

/-- A legal `Sink` exhibiting partial acceptance: accepts at most `k` bytes
of each offered slice. -/
def chunkSend (k : Nat) (s : Bytes) (d : Bytes) : Bytes × Option Nat :=
  (s ++ d.take k, some (min k d.length))

/-- A `Sink` whose `send` always fails. -/
def failSend (s : Bytes) (_ : Bytes) : Bytes × Option Nat := (s, none)

/-- The `while pos < buffer.len()` loop of `SinkWrapper::write_str`,
with explicit fuel: the Rust loop does not terminate if the sink keeps
accepting 0 bytes, so `none` marks fuel exhaustion; `some (s, ok)` is a
returned `Ok(())`/`Err(fmt::Error)` with the final sink state. -/
def write_str_loop {σ : Type} (send : σ → Bytes → σ × Option Nat)
    (buffer : Bytes) : Nat → σ → Nat → Option (σ × Bool)
  | 0, s, pos => if pos < buffer.length then none else some (s, true)
  | fuel + 1, s, pos =>
    if pos < buffer.length then
      match send s (buffer.drop pos) with
      | (s1, some len) => write_str_loop send buffer fuel s1 (pos + len)
      | (s1, none) => some (s1, false)
    else some (s, true)

/-- `SinkWrapper::write_str`. -/
def write_str {σ : Type} (send : σ → Bytes → σ × Option Nat) (s : σ)
    (buffer : Bytes) (fuel : Nat) : Option (σ × Bool) :=
  write_str_loop send buffer fuel s 0

/-! ## Canonical (split-independent) observables of a response stream

For a fixed response byte stream whose header block is its first `L` bytes
and whose framing state after the headers is `st`, the cumulative Handler
observables after the first `t` stream bytes have been pushed — in any
fragmentation — are given by `canonBody`/`canonEnd`, and the machine
configuration is related to `t` by `coherent`. -/

def canonBody (stream : Bytes) (L : Nat) (st : State) (t : Nat) : Bytes :=
  match st with
  | State.payload n => (stream.drop L).take (min (t - L) n)
  | _ => (stream.drop L).take (t - L)

def canonEnd (st : State) (L t : Nat) : Nat :=
  match st with
  | State.payload n => if L + n ≤ t then 1 else 0
  | _ => 0

def coherent (stream : Bytes) (L : Nat) (st : State) (r : Request) (t : Nat) :
    Prop :=
  (t < L ∧ r.state = State.header ∧ r.inbound = stream.take t ∧
    r.processed_bytes = 0)
  ∨ (∃ n, st = State.payload n ∧ L ≤ t ∧ t < L + n ∧ r.state = State.payload n ∧
      r.inbound = [] ∧ r.processed_bytes = t - L)
  ∨ (∃ n, st = State.payload n ∧ L + n ≤ t ∧ r.state = State.complete)
  ∨ (st = State.unlimitedPayload ∧ L ≤ t ∧ r.state = State.unlimitedPayload ∧
      r.inbound = [] ∧ r.processed_bytes = 0)

/-! ## Concrete parser instances (for witnesses and counterexamples)

Concrete stand-ins for `httparse` on specific response streams, each proved
to satisfy the `ParserSpec` contract for its stream. -/

/-- A response stream with no Content-Length: 19 header bytes, then body
`abc`. -/
def demoStream : Bytes := strBytes "HTTP/1.1 200 OK\r\n\r\nabc"

def demoParser (buf : Bytes) : ParseResult :=
  if buf.length < 19 then ParseResult.needMore
  else ParseResult.complete 19 1 200 (strBytes "OK") []

/-- A response stream with `Content-Length: 3`: 38 header bytes, then body
`abc`. -/
def demoStreamCL : Bytes := strBytes "HTTP/1.1 200 OK\r\nContent-Length: 3\r\n\r\nabc"

def demoParserCL (buf : Bytes) : ParseResult :=
  if buf.length < 38 then ParseResult.needMore
  else ParseResult.complete 38 1 200 (strBytes "OK")
    [(strBytes "Content-Length", strBytes "3")]

/-- A response with `Content-Length: 0` and no body: 38 header bytes. -/
def demoStreamCL0 : Bytes := strBytes "HTTP/1.1 200 OK\r\nContent-Length: 0\r\n\r\n"

def demoParserCL0 (buf : Bytes) : ParseResult :=
  if buf.length < 38 then ParseResult.needMore
  else ParseResult.complete 38 1 200 (strBytes "OK")
    [(strBytes "Content-Length", strBytes "0")]

/-- Example `Request` configurations used in witnesses. -/
def demoUnboundedRequest : Request :=
  { inbound := [], state := State.unlimitedPayload, processed_bytes := 0 }

def demoFixedRequest : Request :=
  { inbound := [], state := State.payload 5, processed_bytes := 2 }

/-! ## Helper lemmas -/

lemma nextState_cases (hs : List (Bytes × Bytes)) :
    nextState hs = State.unlimitedPayload ∨ ∃ n, nextState hs = State.payload n := by
  unfold nextState
  cases hfind : hs.find? (fun e => eqIgnoreAsciiCase e.1 contentLengthName) with
  | none => exact Or.inl rfl
  | some h =>
    cases hp : parseUsize h.2 with
    | none => simp [hp]
    | some n => exact Or.inr ⟨n, by simp [hp]⟩

lemma obsStatus_append (a b : List Event) :
    obsStatus (a ++ b) = obsStatus a ++ obsStatus b := by
  simp [obsStatus]

lemma obsBody_append (a b : List Event) :
    obsBody (a ++ b) = obsBody a ++ obsBody b := by
  simp [obsBody]

lemma obsEnd_append (a b : List Event) :
    obsEnd (a ++ b) = obsEnd a + obsEnd b := by
  simp [obsEnd]

lemma push_of_header (P : Bytes → ParseResult) (r : Request) (i : Input)
    (h : r.state = State.header) : push P r i = push_header P r i := by
  unfold push; rw [h]

lemma push_of_payload (P : Bytes → ParseResult) (r : Request) (i : Input)
    (n : Nat) (h : r.state = State.payload n) :
    push P r i = push_sized_payload r n i := by
  unfold push; rw [h]

lemma push_of_unlimited (P : Bytes → ParseResult) (r : Request) (i : Input)
    (h : r.state = State.unlimitedPayload) : push P r i = push_payload r i := by
  unfold push; rw [h]

lemma push_of_complete (P : Bytes → ParseResult) (r : Request) (i : Input)
    (h : r.state = State.complete) : push P r i = push_complete_payload r i := by
  unfold push; rw [h]

lemma pushBody_of_payload (r : Request) (i : Input) (n : Nat)
    (h : r.state = State.payload n) : pushBody r i = push_sized_payload r n i := by
  unfold pushBody; rw [h]

lemma pushBody_of_unlimited (r : Request) (i : Input)
    (h : r.state = State.unlimitedPayload) : pushBody r i = push_payload r i := by
  unfold pushBody; rw [h]

/-- `push_sized_payload`, incoming fragment at least as long as the
remaining byte count: deliver exactly the first `rem` bytes, flip to
`Complete`, then signal end of body. -/
lemma push_sized_ge (r : Request) (n : Nat) (d : Bytes)
    (h : n - r.processed_bytes ≤ d.length) :
    push_sized_payload r n (Input.data d)
      = ({ r with state := State.complete },
         [Event.body (d.take (n - r.processed_bytes)), Event.bodyEnd]) := by
  simp [push_sized_payload, h]

/-- `push_sized_payload`, short fragment: forward it whole and advance the
processed-bytes counter. -/
lemma push_sized_lt (r : Request) (n : Nat) (d : Bytes)
    (h : d.length < n - r.processed_bytes) :
    push_sized_payload r n (Input.data d)
      = ({ r with processed_bytes := r.processed_bytes + d.length },
         [Event.body d]) := by
  simp [push_sized_payload, Nat.not_le.mpr h]

lemma canonBody_of_le (stream : Bytes) (L : Nat) (st : State) (t : Nat)
    (h : t ≤ L) : canonBody stream L st t = [] := by
  cases st <;> simp [canonBody, Nat.sub_eq_zero_of_le h]

lemma canonEnd_of_lt (st : State) (L t : Nat) (h : t < L) :
    canonEnd st L t = 0 := by
  cases st with
  | payload n => simp only [canonEnd]; rw [if_neg (by omega)]
  | header => rfl
  | complete => rfl
  | unlimitedPayload => rfl

/-- One data fragment, taken from the stream at position `t`, advances a
coherent configuration to position `t + len` and emits exactly the
canonical observable deltas. -/
lemma push_step (P : Bytes → ParseResult) (stream : Bytes)
    (L version code : Nat) (reason : Bytes) (headers : List (Bytes × Bytes))
    (hspec : ParserSpec P stream L version code reason headers)
    (t len : Nat) (r : Request)
    (hc : coherent stream L (nextState headers) r t)
    (hlen : t + len ≤ stream.length) :
    coherent stream L (nextState headers)
      (push P r (Input.data ((stream.drop t).take len))).1 (t + len) ∧
    obsStatus (push P r (Input.data ((stream.drop t).take len))).2
      = (if L ≤ t then [] else
         if L ≤ t + len then [(version, code, reason)] else []) ∧
    canonBody stream L (nextState headers) (t + len)
      = canonBody stream L (nextState headers) t
        ++ obsBody (push P r (Input.data ((stream.drop t).take len))).2 ∧
    canonEnd (nextState headers) L (t + len)
      = canonEnd (nextState headers) L t
        + obsEnd (push P r (Input.data ((stream.drop t).take len))).2 := by
  obtain ⟨hLpos, hLlen, hP⟩ := hspec
  have hdlen : ((stream.drop t).take len).length = len := by
    simp only [List.length_take, List.length_drop]; omega
  rcases hc with ⟨htL, hst, hin, hpr⟩ | ⟨n, hns, htL, htn, hst, hin, hpr⟩ |
    ⟨n, hns, htn, hst⟩ | ⟨hns, htL, hst, hin, hpr⟩
  · -- header-assembly phase
    rw [push_of_header _ _ _ hst]
    have hbuf : r.inbound ++ (stream.drop t).take len = stream.take (t + len) := by
      rw [hin, ← List.take_add]
    by_cases h2 : t + len < L
    · -- still a partial header block
      have hpar : P (stream.take (t + len)) = ParseResult.needMore :=
        (hP (t + len) hlen).1 h2
      simp only [push_header, hbuf, hpar]
      refine ⟨Or.inl ⟨h2, hst, rfl, hpr⟩, ?_, ?_, ?_⟩
      · rw [if_neg (by omega), if_neg (by omega)]; rfl
      · rw [canonBody_of_le _ _ _ (t + len) (by omega), canonBody_of_le _ _ _ t (by omega)]
        rfl
      · rw [canonEnd_of_lt _ _ (t + len) h2, canonEnd_of_lt _ _ t htL]; rfl
    · -- this fragment completes the header block
      have hcomp : P (stream.take (t + len))
          = ParseResult.complete L version code reason headers :=
        (hP (t + len) hlen).2 (by omega)
      have hstart : L - ((stream.take (t + len)).length
          - ((stream.drop t).take len).length) = L - t := by
        simp only [hdlen, List.length_take]; omega
      have hrem : ((stream.drop t).take len).drop (L - t)
          = (stream.drop L).take (t + len - L) := by
        rw [List.drop_take, List.drop_drop]
        have h1 : t + (L - t) = L := by omega
        have h3 : len - (L - t) = t + len - L := by omega
        rw [h1, h3]
      have hremlen : ((stream.drop L).take (t + len - L)).length = t + len - L := by
        simp only [List.length_take, List.length_drop]; omega
      simp only [push_header, hbuf, hcomp, hstart, hrem]
      rcases nextState_cases headers with hns | ⟨n, hns⟩
      · -- no usable Content-Length: UnlimitedPayload
        rw [hns]
        simp only [pushBody, push_payload]
        refine ⟨Or.inr (Or.inr (Or.inr ⟨rfl, by omega, rfl, rfl, ?_⟩)), ?_, ?_, ?_⟩
        · exact hpr
        · rw [if_neg (by omega), if_pos (by omega)]; rfl
        · rw [canonBody_of_le _ _ _ t (by omega)]
          simp [canonBody, obsBody]
        · rw [canonEnd_of_lt _ _ t htL]
          simp [canonEnd, obsEnd]
      · -- Content-Length n: Payload n
        rw [hns]
        simp only [pushBody]
        by_cases hball : L + n ≤ t + len
        · -- the same fragment also completes the fixed-size body
          rw [push_sized_ge _ _ _ (by simp only [hremlen, hpr]; omega)]
          simp only [hpr]
          refine ⟨Or.inr (Or.inr (Or.inl ⟨n, rfl, hball, rfl⟩)), ?_, ?_, ?_⟩
          · rw [if_neg (by omega), if_pos (by omega)]; rfl
          · rw [canonBody_of_le _ _ _ t (by omega)]
            simp only [canonBody, obsBody, List.nil_append, Nat.sub_zero,
              List.take_take]
            have h4 : min (t + len - L) n = n := by omega
            have h5 : min n (t + len - L) = n := by omega
            simp [h4, h5, obsBody]
          · rw [canonEnd_of_lt _ _ t htL]
            simp [canonEnd, obsEnd, if_pos hball]
        · -- body still incomplete after this fragment
          rw [push_sized_lt _ _ _ (by simp only [hremlen, hpr]; omega)]
          refine ⟨Or.inr (Or.inl ⟨n, rfl, by omega, by omega, rfl, rfl, ?_⟩),
            ?_, ?_, ?_⟩
          · simp only [hpr, hremlen]; omega
          · rw [if_neg (by omega), if_pos (by omega)]; rfl
          · rw [canonBody_of_le _ _ _ t (by omega)]
            have h4 : min (t + len - L) n = t + len - L := by omega
            simp [canonBody, obsBody, h4]
          · rw [canonEnd_of_lt _ _ t htL]
            simp only [canonEnd, obsEnd]
            rw [if_neg (by omega)]
            rfl
  · -- FixedBody, body not yet complete
    rw [push_of_payload _ _ _ n hst]
    by_cases hball : L + n ≤ t + len
    · rw [push_sized_ge _ _ _ (by rw [hpr, hdlen]; omega)]
      refine ⟨Or.inr (Or.inr (Or.inl ⟨n, hns, hball, rfl⟩)), ?_, ?_, ?_⟩
      · rw [if_pos (by omega)]; rfl
      · simp only [canonBody, hns, obsBody, hpr]
        have h1 : min (t + len - L) n = n := by omega
        have h2 : min (t - L) n = t - L := by omega
        have h3 : ((stream.drop t).take len).take (n - (t - L))
            = (stream.drop t).take (n - (t - L)) := by
          rw [List.take_take]
          have : min (n - (t - L)) len = n - (t - L) := by omega
          rw [this]
        rw [h1, h2, h3]
        have h4 : n = (t - L) + (n - (t - L)) := by omega
        rw [h4, List.take_add, List.drop_drop]
        have h5 : L + (t - L) = t := by omega
        rw [h5]
        simp
      · simp only [canonEnd, hns, obsEnd]
        rw [if_pos hball, if_neg (by omega)]
        rfl
    · rw [push_sized_lt _ _ _ (by rw [hpr, hdlen]; omega)]
      refine ⟨Or.inr (Or.inl ⟨n, hns, by omega, by omega, by simp [hst],
        by simp [hin], by simp only [hpr, hdlen]; omega⟩), ?_, ?_, ?_⟩
      · rw [if_pos (by omega)]; rfl
      · simp only [canonBody, hns, obsBody]
        have h1 : min (t + len - L) n = t + len - L := by omega
        have h2 : min (t - L) n = t - L := by omega
        rw [h1, h2]
        have h3 : t + len - L = (t - L) + len := by omega
        rw [h3, List.take_add, List.drop_drop]
        have h4 : L + (t - L) = t := by omega
        rw [h4]
        simp
      · simp only [canonEnd, hns, obsEnd]
        rw [if_neg (by omega), if_neg (by omega)]
        rfl
  · -- Complete: the overflow branch, no callbacks
    rw [push_of_complete _ _ _ hst]
    simp only [push_complete_payload]
    refine ⟨Or.inr (Or.inr (Or.inl ⟨n, hns, by omega, by simp [hst]⟩)), ?_, ?_, ?_⟩
    · rw [if_pos (by omega)]; rfl
    · simp only [canonBody, hns, obsBody]
      have h1 : min (t + len - L) n = n := by omega
      have h2 : min (t - L) n = n := by omega
      rw [h1, h2]
      simp
    · simp only [canonEnd, hns, obsEnd]
      rw [if_pos (by omega), if_pos (by omega)]
      rfl
  · -- UnboundedBody: fragments forwarded verbatim
    rw [push_of_unlimited _ _ _ hst]
    simp only [push_payload]
    refine ⟨Or.inr (Or.inr (Or.inr ⟨hns, by omega, hst, hin, hpr⟩)), ?_, ?_, ?_⟩
    · rw [if_pos (by omega)]; rfl
    · simp only [canonBody, hns, obsBody]
      have h3 : t + len - L = (t - L) + len := by omega
      rw [h3, List.take_add, List.drop_drop]
      have h4 : L + (t - L) = t := by omega
      rw [h4]
      simp
    · simp only [canonEnd, hns, obsEnd]
      rfl

/-- Pushing any fragmentation of the response stream from a coherent
configuration yields the canonical observables: the status callback fires
exactly once (when the header block is crossed), the body-callback
concatenation and the sentinel count are the canonical ones — independent
of the fragment boundaries. -/
lemma runData_canonical (P : Bytes → ParseResult) (stream : Bytes)
    (L version code : Nat) (reason : Bytes) (headers : List (Bytes × Bytes))
    (hspec : ParserSpec P stream L version code reason headers) :
    ∀ (frags : List Bytes) (t : Nat) (r : Request),
      coherent stream L (nextState headers) r t →
      t ≤ stream.length →
      stream.drop t = frags.flatten →
      coherent stream L (nextState headers) (runData P r frags).1 stream.length ∧
      obsStatus (runData P r frags).2
        = (if L ≤ t then [] else [(version, code, reason)]) ∧
      canonBody stream L (nextState headers) stream.length
        = canonBody stream L (nextState headers) t
          ++ obsBody (runData P r frags).2 ∧
      canonEnd (nextState headers) L stream.length
        = canonEnd (nextState headers) L t + obsEnd (runData P r frags).2 := by
  intro frags
  induction frags with
  | nil =>
    intro t r hc ht hj
    have hlt : stream.length ≤ t := by
      have h1 := congrArg List.length hj
      simp only [List.length_drop, List.flatten_nil, List.length_nil] at h1
      omega
    have hteq : t = stream.length := le_antisymm ht hlt
    subst hteq
    refine ⟨hc, ?_, by simp [runData, obsBody], by simp [runData, obsEnd]⟩
    rw [if_pos hspec.2.1]
    simp [runData, obsStatus]
  | cons d rest ih =>
    intro t r hc ht hj
    have hlen2 : d.length + rest.flatten.length + t = stream.length := by
      have h1 := congrArg List.length hj
      simp only [List.length_drop, List.flatten_cons, List.length_append] at h1
      omega
    have hdfrag : d = (stream.drop t).take d.length := by
      rw [hj]
      exact (List.take_left' rfl).symm
    have hdrop : stream.drop (t + d.length) = rest.flatten := by
      rw [← List.drop_drop, hj, List.flatten_cons, List.drop_left]
    have hstep := push_step P stream L version code reason headers hspec
      t d.length r hc (by omega)
    rw [← hdfrag] at hstep
    obtain ⟨hc1, hs1, hb1, he1⟩ := hstep
    obtain ⟨hc2, hs2, hb2, he2⟩ :=
      ih (t + d.length) (push P r (Input.data d)).1 hc1 (by omega) hdrop
    refine ⟨by simpa [runData] using hc2, ?_, ?_, ?_⟩
    · simp only [runData, obsStatus_append]
      rw [hs1, hs2]
      by_cases hL1 : L ≤ t
      · rw [if_pos hL1, if_pos hL1, if_pos (by omega)]; rfl
      · rw [if_neg hL1, if_neg hL1]
        by_cases hL2 : L ≤ t + d.length
        · rw [if_pos hL2, if_pos hL2]; rfl
        · rw [if_neg hL2, if_neg hL2]; rfl
    · simp only [runData, obsBody_append]
      rw [hb2, hb1, List.append_assoc]
    · simp only [runData, obsEnd_append]
      rw [he2, he1]
      omega

/-! ## The claims -/

/-- C2: for any fixed response byte stream (with the parsing primitive
behaving per its contract on that stream), any two fragmentations fed
through `push_data` produce the same Handler observables: the status
callback exactly once with the same version/code/reason, body fragments
with the same concatenation, and the same number of end-of-body sentinels —
in particular body bytes arriving in the same fragment as the end of the
header block are neither dropped nor duplicated. -/
theorem push_fragmentation_invariance
    (P : Bytes → ParseResult) (stream : Bytes) (L version code : Nat)
    (reason : Bytes) (headers : List (Bytes × Bytes))
    (frags1 frags2 : List Bytes)
    (hspec : ParserSpec P stream L version code reason headers)
    (h1 : frags1.flatten = stream) (h2 : frags2.flatten = stream) :
    obsStatus (runData P initialRequest frags1).2 = [(version, code, reason)] ∧
    obsStatus (runData P initialRequest frags2).2 = [(version, code, reason)] ∧
    obsBody (runData P initialRequest frags1).2
      = obsBody (runData P initialRequest frags2).2 ∧
    obsEnd (runData P initialRequest frags1).2
      = obsEnd (runData P initialRequest frags2).2 := by
  have hc0 : coherent stream L (nextState headers) initialRequest 0 :=
    Or.inl ⟨hspec.1, rfl, rfl, rfl⟩
  obtain ⟨-, hs1, hb1, he1⟩ := runData_canonical P stream L version code reason
    headers hspec frags1 0 initialRequest hc0 (by omega)
    (by simpa using h1.symm)
  obtain ⟨-, hs2, hb2, he2⟩ := runData_canonical P stream L version code reason
    headers hspec frags2 0 initialRequest hc0 (by omega)
    (by simpa using h2.symm)
  have hL0 : ¬ L ≤ 0 := by have := hspec.1; omega
  rw [if_neg hL0] at hs1 hs2
  rw [canonBody_of_le _ _ _ 0 (by omega), List.nil_append] at hb1 hb2
  rw [canonEnd_of_lt _ _ 0 hspec.1, Nat.zero_add] at he1 he2
  exact ⟨hs1, hs2, by rw [← hb1, ← hb2], by omega⟩

/-- C3: in the `FixedBody` state a fragment at least as long as the
remaining count delivers exactly the first `remaining` bytes, flips the
state to `Complete` and then signals the end-of-body sentinel, all within
the push call, with the excess bytes not forwarded; a shorter fragment is
forwarded whole and decreases the outstanding count by its length, leaving
`FixedBody`. `Complete` is absorbing, and for a `Content-Length: N`
response whose stream carries exactly the N body bytes, any fragmentation
makes `is_complete()` true, delivers exactly those N bytes, and signals the
sentinel exactly once. -/
theorem fixed_body_delivery
    (P : Bytes → ParseResult) (stream : Bytes) (L version code : Nat)
    (reason : Bytes) (headers : List (Bytes × Bytes)) (n : Nat)
    (frags : List Bytes)
    (hspec : ParserSpec P stream L version code reason headers)
    (hn : nextState headers = State.payload n)
    (hT : stream.length = L + n)
    (hj : frags.flatten = stream) :
    (∀ (r : Request) (m : Nat) (d : Bytes), r.state = State.payload m →
        m - r.processed_bytes ≤ d.length →
        push P r (Input.data d)
          = ({ r with state := State.complete },
             [Event.body (d.take (m - r.processed_bytes)), Event.bodyEnd])) ∧
    (∀ (r : Request) (m : Nat) (d : Bytes), r.state = State.payload m →
        d.length < m - r.processed_bytes →
        push P r (Input.data d)
          = ({ r with processed_bytes := r.processed_bytes + d.length },
             [Event.body d])) ∧
    (∀ (r : Request) (i : Input), r.state = State.complete →
        (push P r i).1.state = State.complete) ∧
    is_complete (runData P initialRequest frags).1 = true ∧
    obsBody (runData P initialRequest frags).2 = stream.drop L ∧
    obsEnd (runData P initialRequest frags).2 = 1 := by
  have hc0 : coherent stream L (nextState headers) initialRequest 0 :=
    Or.inl ⟨hspec.1, rfl, rfl, rfl⟩
  obtain ⟨hcT, hsT, hbT, heT⟩ := runData_canonical P stream L version code
    reason headers hspec frags 0 initialRequest hc0 (by omega)
    (by simpa using hj.symm)
  refine ⟨?_, ?_, ?_, ?_, ?_, ?_⟩
  · intro r m d h1 h2
    rw [push_of_payload _ _ _ m h1, push_sized_ge _ _ _ h2]
  · intro r m d h1 h2
    rw [push_of_payload _ _ _ m h1, push_sized_lt _ _ _ h2]
  · intro r i h1
    rw [push_of_complete _ _ _ h1]
    cases i <;> simp [push_complete_payload, h1]
  · rcases hcT with ⟨hlt, -, -, -⟩ | ⟨m, hm, -, hlt, -, -, -⟩ |
      ⟨m, hm, hle, hst⟩ | ⟨hu, -, -, -, -⟩
    · exact absurd hspec.2.1 (by omega)
    · rw [hn] at hm
      cases hm
      omega
    · simp [is_complete, hst]
    · rw [hn] at hu
      cases hu
  · rw [canonBody_of_le _ _ _ 0 (by omega), List.nil_append] at hbT
    rw [← hbT]
    simp only [canonBody, hn]
    have hmin : min (stream.length - L) n = n := by omega
    rw [hmin]
    exact List.take_of_length_le (by simp [List.length_drop]; omega)
  · rw [canonEnd_of_lt _ _ 0 hspec.1, Nat.zero_add] at heT
    rw [← heT]
    simp only [canonEnd, hn]
    rw [if_pos (by omega)]

/-- Witness for C2: the whole stream in one fragment against a four-way
split (status line split mid-token, header terminator and body split). -/
theorem push_fragmentation_invariance_witness :
    obsStatus (runData demoParser initialRequest [demoStream]).2
      = [(1, 200, strBytes "OK")] ∧
    obsStatus (runData demoParser initialRequest
      [strBytes "HTTP/1.1 ", strBytes "200 OK\r\n", strBytes "\r\n",
       strBytes "abc"]).2 = [(1, 200, strBytes "OK")] ∧
    obsBody (runData demoParser initialRequest [demoStream]).2
      = obsBody (runData demoParser initialRequest
          [strBytes "HTTP/1.1 ", strBytes "200 OK\r\n", strBytes "\r\n",
           strBytes "abc"]).2 ∧
    obsEnd (runData demoParser initialRequest [demoStream]).2
      = obsEnd (runData demoParser initialRequest
          [strBytes "HTTP/1.1 ", strBytes "200 OK\r\n", strBytes "\r\n",
           strBytes "abc"]).2 :=
  push_fragmentation_invariance demoParser demoStream 19 1 200 (strBytes "OK")
    [] [demoStream]
    [strBytes "HTTP/1.1 ", strBytes "200 OK\r\n", strBytes "\r\n",
     strBytes "abc"]
    ⟨by decide, by decide, by decide⟩ (by decide) (by decide)

/-- Witness for C3: `Content-Length: 3` response split into three fragments
at positions 20 and 39 (mid-header and mid-body). -/
theorem fixed_body_delivery_witness :
    is_complete (runData demoParserCL initialRequest
      [demoStreamCL.take 20, (demoStreamCL.drop 20).take 19,
       demoStreamCL.drop 39]).1 = true ∧
    obsBody (runData demoParserCL initialRequest
      [demoStreamCL.take 20, (demoStreamCL.drop 20).take 19,
       demoStreamCL.drop 39]).2 = strBytes "abc" ∧
    obsEnd (runData demoParserCL initialRequest
      [demoStreamCL.take 20, (demoStreamCL.drop 20).take 19,
       demoStreamCL.drop 39]).2 = 1 :=
  ⟨(fixed_body_delivery demoParserCL demoStreamCL 38 1 200 (strBytes "OK")
      [(strBytes "Content-Length", strBytes "3")] 3
      [demoStreamCL.take 20, (demoStreamCL.drop 20).take 19,
       demoStreamCL.drop 39]
      ⟨by decide, by decide, by decide⟩ (by decide) (by decide)
      (by decide)).2.2.2.1,
   (fixed_body_delivery demoParserCL demoStreamCL 38 1 200 (strBytes "OK")
      [(strBytes "Content-Length", strBytes "3")] 3
      [demoStreamCL.take 20, (demoStreamCL.drop 20).take 19,
       demoStreamCL.drop 39]
      ⟨by decide, by decide, by decide⟩ (by decide) (by decide)
      (by decide)).2.2.2.2.1,
   (fixed_body_delivery demoParserCL demoStreamCL 38 1 200 (strBytes "OK")
      [(strBytes "Content-Length", strBytes "3")] 3
      [demoStreamCL.take 20, (demoStreamCL.drop 20).take 19,
       demoStreamCL.drop 39]
      ⟨by decide, by decide, by decide⟩ (by decide) (by decide)
      (by decide)).2.2.2.2.2⟩

/-- C4: after a complete header block the next framing state is determined
solely by the case-insensitive search for a `Content-Length` header: if the
first such header's value parses as a non-negative integer `n` the state is
`FixedBody n`; if its value does not parse (not UTF-8 digits / overflow),
or no such header exists, the state is `UnboundedBody`; the header phase is
never re-entered and the state is never directly `Complete`. -/
theorem content_length_framing (headers : List (Bytes × Bytes)) :
    (∀ h n, headers.find? (fun e => eqIgnoreAsciiCase e.1 contentLengthName)
        = some h → parseUsize h.2 = some n →
        nextState headers = State.payload n) ∧
    (∀ h, headers.find? (fun e => eqIgnoreAsciiCase e.1 contentLengthName)
        = some h → parseUsize h.2 = none →
        nextState headers = State.unlimitedPayload) ∧
    (headers.find? (fun e => eqIgnoreAsciiCase e.1 contentLengthName) = none →
        nextState headers = State.unlimitedPayload) ∧
    nextState headers ≠ State.header ∧
    nextState headers ≠ State.complete := by
  refine ⟨?_, ?_, ?_, ?_, ?_⟩
  · intro h n hfind hp
    unfold nextState
    simp [hfind, hp]
  · intro h hfind hp
    unfold nextState
    simp [hfind, hp]
  · intro hfind
    unfold nextState
    simp [hfind]
  · rcases nextState_cases headers with h | ⟨n, h⟩ <;> simp [h]
  · rcases nextState_cases headers with h | ⟨n, h⟩ <;> simp [h]

/-- Witness for C4: a `Content-Length: 42` header (mixed case would match
as well, `contentLengthName` is compared case-insensitively) yields
`FixedBody 42`. -/
theorem content_length_framing_witness :
    nextState [(strBytes "Content-Length", strBytes "42")]
      = State.payload 42 :=
  (content_length_framing [(strBytes "Content-Length", strBytes "42")]).1
    (strBytes "Content-Length", strBytes "42") 42 (by decide) (by decide)

/-- C5 (amended): in the `UnboundedBody` state every data fragment is
forwarded verbatim to the Handler and an explicit close is surfaced as the
end-of-body sentinel, but no input ever changes the framing state: it stays
`UnboundedBody`, so `is_complete()` is false and remains false even after
the transport reports closure — completion is signaled only to the Handler,
not reflected in the framing state. -/
theorem unbounded_state_forwarding (P : Bytes → ParseResult) (r : Request)
    (h : r.state = State.unlimitedPayload) :
    (∀ d, push P r (Input.data d) = (r, [Event.body d])) ∧
    push P r Input.close = (r, [Event.bodyEnd]) ∧
    is_complete r = false ∧
    ∀ inputs, (runInputs P r inputs).1.state = State.unlimitedPayload := by
  refine ⟨?_, ?_, ?_, ?_⟩
  · intro d
    rw [push_of_unlimited _ _ _ h]
    rfl
  · rw [push_of_unlimited _ _ _ h]
    rfl
  · simp [is_complete, h]
  · intro inputs
    induction inputs generalizing r with
    | nil => simpa [runInputs] using h
    | cons i rest ih =>
      simp only [runInputs]
      apply ih
      rw [push_of_unlimited _ _ _ h]
      simpa [push_payload] using h

/-- Counterexample for C5: after the full Content-Length-free response and
an explicit close, the Handler has received the end-of-body sentinel, yet
the framing state is still `UnboundedBody` and `is_complete()` is false —
the close does not terminate the framing state as the claim asserts. -/
theorem unbounded_close_counterexample :
    ParserSpec demoParser demoStream 19 1 200 (strBytes "OK") [] ∧
    (runData demoParser initialRequest [demoStream]).1.state
      = State.unlimitedPayload ∧
    obsEnd (push_close demoParser
      (runData demoParser initialRequest [demoStream]).1).2 = 1 ∧
    is_complete (push_close demoParser
      (runData demoParser initialRequest [demoStream]).1).1 = false :=
  ⟨⟨by decide, by decide, by decide⟩, by decide, by decide, by decide⟩

/-- Witness for C5's amended theorem. -/
theorem unbounded_state_forwarding_witness :
    push demoParser demoUnboundedRequest Input.close
      = (demoUnboundedRequest, [Event.bodyEnd]) ∧
    is_complete demoUnboundedRequest = false :=
  ⟨(unbounded_state_forwarding demoParser _ rfl).2.1,
   (unbounded_state_forwarding demoParser _ rfl).2.2.1⟩

/-- C8: if, in the header-assembly state, the parser reports an error on
the accumulated bytes, the push performs no state transition (the state is
still `Header`), invokes no Handler callback, and retains the accumulated
scratch-buffer contents (previous bytes plus the new fragment). -/
theorem push_header_parse_error_stalls (P : Bytes → ParseResult)
    (r : Request) (d : Bytes) (hst : r.state = State.header)
    (herr : P (r.inbound ++ d) = ParseResult.parseError) :
    push P r (Input.data d) = ({ r with inbound := r.inbound ++ d }, []) ∧
    (push P r (Input.data d)).1.state = State.header := by
  have h1 : push P r (Input.data d)
      = ({ r with inbound := r.inbound ++ d }, []) := by
    rw [push_of_header _ _ _ hst]
    simp only [push_header, herr]
  exact ⟨h1, by rw [h1]; exact hst⟩

/-- Witness for C8. -/
theorem push_header_parse_error_stalls_witness :
    push (fun _ => ParseResult.parseError) initialRequest (Input.data [72])
      = ({ inbound := [72], state := State.header, processed_bytes := 0 },
         []) ∧
    (push (fun _ => ParseResult.parseError) initialRequest
      (Input.data [72])).1.state = State.header :=
  push_header_parse_error_stalls (fun _ => ParseResult.parseError)
    initialRequest [72] rfl rfl

/-- C10: in the `FixedBody` state an explicit close is silently ignored:
no Handler callback, configuration (state and processed-byte counter)
unchanged — and since any number of further closes leaves it unchanged,
`is_complete()` never becomes true for a peer that closes mid-body. -/
theorem fixed_body_close_ignored (P : Bytes → ParseResult) (r : Request)
    (n : Nat) (hst : r.state = State.payload n) :
    push P r Input.close = (r, []) ∧
    is_complete r = false ∧
    ∀ k, runInputs P r (List.replicate k Input.close) = (r, []) := by
  have h1 : push P r Input.close = (r, []) := by
    rw [push_of_payload _ _ _ n hst]
    rfl
  refine ⟨h1, by simp [is_complete, hst], ?_⟩
  intro k
  induction k with
  | zero => rfl
  | succ k ih => simp [List.replicate_succ, runInputs, h1, ih]

/-- Witness for C10: a request owing 5 more body bytes ignores the close. -/
theorem fixed_body_close_ignored_witness :
    push demoParserCL demoFixedRequest Input.close
      = (demoFixedRequest, []) ∧
    is_complete demoFixedRequest = false :=
  ⟨(fixed_body_close_ignored demoParserCL _ 5 rfl).1,
   (fixed_body_close_ignored demoParserCL _ 5 rfl).2.1⟩

/-- One push step preserves the invariant that `inbound` is empty in the
`Payload` and `UnlimitedPayload` states. -/
lemma push_preserves_inbound_inv (P : Bytes → ParseResult) (r : Request)
    (i : Input)
    (hr : (∀ n, r.state = State.payload n → r.inbound = []) ∧
          (r.state = State.unlimitedPayload → r.inbound = [])) :
    (∀ n, (push P r i).1.state = State.payload n →
        (push P r i).1.inbound = []) ∧
    ((push P r i).1.state = State.unlimitedPayload →
        (push P r i).1.inbound = []) := by
  cases hst : r.state with
  | header =>
    rw [push_of_header _ _ _ hst]
    cases i with
    | data d =>
      simp only [push_header]
      cases hp : P (r.inbound ++ d) with
      | complete len v c rs hs => exact ⟨fun _ _ => rfl, fun _ => rfl⟩
      | needMore => simp [hst]
      | parseError => simp [hst]
    | close => simp [push_header, hst]
    | failed => simp [push_header, hst]
  | payload m =>
    rw [push_of_payload _ _ _ m hst]
    have hinb : r.inbound = [] := hr.1 m hst
    cases i with
    | data d =>
      simp only [push_sized_payload]
      by_cases hge : m - r.processed_bytes ≤ d.length
      · simp [hge, hinb]
      · simp [hge, hinb, hst]
    | close => simp [push_sized_payload, hst, hinb]
    | failed => simp [push_sized_payload, hst, hinb]
  | unlimitedPayload =>
    rw [push_of_unlimited _ _ _ hst]
    simpa [push_payload, hst] using hr
  | complete =>
    rw [push_of_complete _ _ _ hst]
    cases i <;> simp [push_complete_payload, hst]

/-- C7 (amended): for every parsing primitive and every sequence of pushes
from the initial state, the scratch buffer `inbound` is empty whenever the
framing state is `FixedBody` or `UnboundedBody`, and the push that finds
the header boundary (leaving the `Header` state) leaves it cleared. (In the
`Complete` state the invariant does not hold: `push_complete_payload`
appends further fragments to `inbound`.) -/
theorem inbound_empty_invariant (P : Bytes → ParseResult)
    (inputs : List Input) :
    (∀ n, (runInputs P initialRequest inputs).1.state = State.payload n →
        (runInputs P initialRequest inputs).1.inbound = []) ∧
    ((runInputs P initialRequest inputs).1.state = State.unlimitedPayload →
        (runInputs P initialRequest inputs).1.inbound = []) ∧
    (∀ (r : Request) (d : Bytes), r.state = State.header →
        (push P r (Input.data d)).1.state ≠ State.header →
        (push P r (Input.data d)).1.inbound = []) := by
  have hmain : ∀ (inputs : List Input) (r : Request),
      (∀ n, r.state = State.payload n → r.inbound = []) →
      (r.state = State.unlimitedPayload → r.inbound = []) →
      (∀ n, (runInputs P r inputs).1.state = State.payload n →
          (runInputs P r inputs).1.inbound = []) ∧
      ((runInputs P r inputs).1.state = State.unlimitedPayload →
          (runInputs P r inputs).1.inbound = []) := by
    intro inputs
    induction inputs with
    | nil => intro r h1 h2; exact ⟨h1, h2⟩
    | cons i rest ih =>
      intro r h1 h2
      simp only [runInputs]
      have hstep := push_preserves_inbound_inv P r i ⟨h1, h2⟩
      exact ih (push P r i).1 hstep.1 hstep.2
  refine ⟨(hmain inputs initialRequest (by simp [initialRequest])
      (by simp [initialRequest])).1,
    (hmain inputs initialRequest (by simp [initialRequest])
      (by simp [initialRequest])).2, ?_⟩
  intro r d hst hne
  rw [push_of_header _ _ _ hst] at hne ⊢
  simp only [push_header] at hne ⊢
  cases hp : P (r.inbound ++ d) with
  | complete len v c rs hs => rfl
  | needMore => rw [hp] at hne; exact absurd hst (by simpa using hne)
  | parseError => rw [hp] at hne; exact absurd hst (by simpa using hne)

/-- Counterexample for C7: the claim includes `Complete` among the states
in which `inbound` must be empty, but a reachable run (full
`Content-Length: 0` response, then one more data fragment, via a parser
satisfying the contract for that stream) ends in `Complete` with a
non-empty `inbound`. -/
theorem complete_state_inbound_counterexample :
    ParserSpec demoParserCL0 demoStreamCL0 38 1 200 (strBytes "OK")
      [(strBytes "Content-Length", strBytes "0")] ∧
    (runData demoParserCL0 initialRequest
      [demoStreamCL0, strBytes "XY"]).1.state = State.complete ∧
    (runData demoParserCL0 initialRequest
      [demoStreamCL0, strBytes "XY"]).1.inbound ≠ [] :=
  ⟨⟨by decide, by decide, by decide⟩, by decide, by decide⟩

/-- Witness for C7's amended theorem: after the header fragment of a
Content-Length-free response, the state is `UnboundedBody` and `inbound` is
empty. -/
theorem inbound_empty_invariant_witness :
    (runInputs demoParser initialRequest
      [Input.data (strBytes "HTTP/1.1 200 OK\r\n\r\n")]).1.inbound = [] :=
  (inbound_empty_invariant demoParser
    [Input.data (strBytes "HTTP/1.1 200 OK\r\n\r\n")]).2.1 (by decide)

/-- C9: if the `Sink` rejects the header-block send, `send_request` aborts
the send sequence at that point — the payload send is never attempted (the
final sink state is the state right after the failing send) — and
`execute_with` discards the error: it still returns a `Request` in the
initial header-assembly state with zero processed bytes. -/
theorem execute_with_swallows_send_failure {σ : Type}
    (send : σ → Bytes → σ × Option Nat) (sink : σ) (method path : Bytes)
    (headers : Option (List (Bytes × Bytes))) (payload : Bytes) (s1 : σ)
    (hfail : send sink (create_request_headers method path headers
        (some payload.length)) = (s1, none)) :
    send_request send sink method path headers (some payload) = (s1, false) ∧
    execute_with send sink method path headers (some payload)
      = (s1, initialRequest) := by
  have h1 : send_request send sink method path headers (some payload)
      = (s1, false) := by
    unfold send_request
    simp only [Option.map, hfail]
  exact ⟨h1, by unfold execute_with; rw [h1]⟩

/-- Witness for C9: a sink that always fails. -/
theorem execute_with_swallows_send_failure_witness :
    send_request failSend [] (strBytes "POST") (strBytes "/") none
      (some (strBytes "x")) = ([], false) ∧
    execute_with failSend [] (strBytes "POST") (strBytes "/") none
      (some (strBytes "x")) = ([], initialRequest) :=
  execute_with_swallows_send_failure failSend [] (strBytes "POST")
    (strBytes "/") none (strBytes "x") [] rfl

/-- Counterexample for C1: with a payload present but no caller-supplied
header list, the bytes pushed into the Sink are just the request line, the
blank line and the payload — the `Content-Length` header the claim
prescribes is absent, because in `create_request_headers` its emission is
nested inside `if let Some(headers) = headers`. -/
theorem missing_content_length_counterexample :
    (execute_with vecSend [] (strBytes "POST") (strBytes "/") none
        (some (strBytes "x"))).1
      = strBytes "POST / HTTP/1.1\r\n\r\nx" ∧
    (execute_with vecSend [] (strBytes "POST") (strBytes "/") none
        (some (strBytes "x"))).1
      ≠ strBytes "POST / HTTP/1.1\r\nContent-Length: 1\r\n\r\nx" :=
  ⟨by decide, by decide⟩

/-- C1 (amended): when a header list was supplied (possibly empty) together
with a payload, the bytes pushed into the Sink are exactly the request
line, then `Content-Length: L` computed from the payload length, then the
caller headers in supplied order, then the blank line, then the raw
payload; when no header list was supplied, the Content-Length header (and
of course any header line) is omitted even though a payload is present. -/
theorem execute_with_wire_format (method path : Bytes)
    (hs : List (Bytes × Bytes)) (p : Bytes) (sink0 : Bytes) :
    (execute_with vecSend sink0 method path (some hs) (some p)).1
      = sink0 ++ method ++ strBytes " " ++ path ++ strBytes " HTTP/1.1\r\n"
        ++ strBytes "Content-Length: " ++ natDecimal p.length
        ++ strBytes "\r\n" ++ (hs.map headerLine).flatten
        ++ strBytes "\r\n" ++ p ∧
    (execute_with vecSend sink0 method path none (some p)).1
      = sink0 ++ method ++ strBytes " " ++ path ++ strBytes " HTTP/1.1\r\n"
        ++ strBytes "\r\n" ++ p := by
  have hCL : strBytes "Content-Length" ++ strBytes ": "
      = strBytes "Content-Length: " := by decide
  constructor <;>
    simp [execute_with, send_request, create_request_headers, vecSend,
      ← hCL, List.append_assoc]

/-- The `while` loop of `SinkWrapper::write_str` against a sink that
accepts at most `k ≥ 1` bytes per call: the not-yet-accepted suffix is
re-offered each iteration until everything has been accepted. -/
lemma write_str_loop_chunk (k : Nat) (hk : 0 < k) (buffer : Bytes) :
    ∀ (fuel pos : Nat) (acc : Bytes), buffer.length - pos ≤ fuel →
      write_str_loop (chunkSend k) buffer fuel acc pos
        = some (acc ++ buffer.drop pos, true) := by
  intro fuel
  induction fuel with
  | zero =>
    intro pos acc h
    have hge : buffer.length ≤ pos := by omega
    simp [write_str_loop, Nat.not_lt.mpr hge, List.drop_of_length_le hge]
  | succ fuel ih =>
    intro pos acc h
    by_cases hpos : pos < buffer.length
    · have hdlen : (buffer.drop pos).length = buffer.length - pos := by
        simp [List.length_drop]
      simp only [write_str_loop, if_pos hpos, chunkSend]
      rw [ih (pos + min k (buffer.drop pos).length)
        (acc ++ (buffer.drop pos).take k) (by rw [hdlen]; omega)]
      have htake : (buffer.drop pos).take k
          = (buffer.drop pos).take (min k (buffer.drop pos).length) := by
        rcases Nat.le_total k (buffer.drop pos).length with h1 | h1
        · rw [Nat.min_eq_left h1]
        · rw [Nat.min_eq_right h1, List.take_of_length_le h1,
            List.take_length]
      have hsplit : buffer.drop (pos + min k (buffer.drop pos).length)
          = (buffer.drop pos).drop (min k (buffer.drop pos).length) := by
        rw [List.drop_drop]
      rw [htake, hsplit, List.append_assoc, List.take_append_drop]
    · simp [write_str_loop, hpos]
      omega

/-- C6 (amended): the Write adapter `SinkWrapper::write_str` does loop on
partial acceptance — against a sink accepting at most `k ≥ 1` bytes per
call it re-offers the remainder until every byte has been accepted, never
dropping any — but `send_request` itself does not use it towards the Sink:
it issues a single `sink.send` per block whose accepted count is discarded,
so there partial acceptance silently drops the unaccepted bytes (see the
counterexample). -/
theorem write_str_accepts_all (k : Nat) (hk : 0 < k) (acc buffer : Bytes)
    (fuel : Nat) (hfuel : buffer.length ≤ fuel) :
    write_str (chunkSend k) acc buffer fuel = some (acc ++ buffer, true) := by
  have h := write_str_loop_chunk k hk buffer fuel 0 acc (by omega)
  simpa [write_str] using h

/-- Witness for C6's amended theorem: a 1-byte-at-a-time sink still gets
the whole 19-byte request line block through `write_str`. -/
theorem write_str_accepts_all_witness :
    write_str (chunkSend 1) [] (strBytes "POST / HTTP/1.1\r\n\r\n") 19
      = some (strBytes "POST / HTTP/1.1\r\n\r\n", true) := by
  have h := write_str_accepts_all 1 (by decide) []
    (strBytes "POST / HTTP/1.1\r\n\r\n") 19 (by decide)
  simpa using h

/-- Counterexample for C6: `send_request` against a legal Sink that accepts
only 1 byte per call reports success while only the first byte of the
serialized request ever reached the sink — the remaining bytes are not
re-offered. -/
theorem send_request_partial_drop_counterexample :
    send_request (chunkSend 1) [] (strBytes "POST") (strBytes "/") none none
      = (strBytes "P", true) ∧
    strBytes "P"
      ≠ create_request_headers (strBytes "POST") (strBytes "/") none none :=
  ⟨by decide, by decide⟩

end DrogueHttp
